import Mathlib

/-!
# Verification of the fconcat traversal-and-streaming engine

Shallow embedding of the core of `src/concat.c` (directory concatenator
`fconcat`): wildcard pattern matching and the exclude set, the binary-file
classifier, the human-readable size formatter, the inode tracker, the
streaming plugin host (`process_file_through_plugins` and its per-chunk
caller), and the two-pass recursive directory walker
(`process_directory_recursive` driven twice by `process_directory`).

Bytes are modelled as `Nat` (with a `< 256` bound where a claim needs it),
C strings as `List Char`, machine counters as `Nat` with explicit `% 2^32`
where the C code wraps, and file-system state as an explicit tree value.
Every definition follows the corresponding C function; the only
definitions taken from the specification's wording instead of the code are
clearly marked (`WildMatch`, `specIsBinary`).
-/

namespace Fconcat

/-! ## Wildcard matching (`match_pattern`, src/concat.c:344-402)

The non-Windows branch: pattern and subject are walked in lockstep;
`*` tries every non-empty suffix of the remaining subject; the final
`return *pat == *str` succeeds only when pattern and subject are both
exhausted. -/

mutual

/-- Embeds `match_pattern` (src/concat.c:345). The `while (*pat && *str)`
loop becomes recursion on the two lists; after the loop the C code returns
`*pat == *str`, i.e. true exactly when both strings are exhausted. -/
def matchPattern : List Char → List Char → Bool
  | '*' :: p, c :: s => if p = [] then true else tryStar p (c :: s)
  | x :: p, c :: s => if x = '?' ∨ x = c then matchPattern p s else false
  | [], [] => true
  | [], _ :: _ => false
  | _ :: _, [] => false
termination_by p s => 2 * (p.length + s.length)
decreasing_by all_goals (simp [List.length]; omega)

/-- The inner `while (*str)` loop of the `*` case: try `match_pattern(pat, str)`
at every non-empty suffix of the subject, advancing one character at a time;
return 0 once the subject is exhausted. -/
def tryStar (p : List Char) : List Char → Bool
  | [] => false
  | c :: s => matchPattern p (c :: s) || tryStar p s
termination_by s => 2 * (p.length + s.length) + 1
decreasing_by all_goals simp [List.length]

end

/-- Modelled from the spec: classical wildcard generation semantics.
`WildMatch p s` holds iff `s` is generated by reading `p` with `*` standing
for any sequence of zero or more characters, `?` for exactly one character,
and every other character for itself. -/
inductive WildMatch : List Char → List Char → Prop
  | nil : WildMatch [] []
  | quest (p s : List Char) (c : Char) :
      WildMatch p s → WildMatch ('?' :: p) (c :: s)
  | lit (c : Char) (p s : List Char) :
      c ≠ '*' → c ≠ '?' → WildMatch p s → WildMatch (c :: p) (c :: s)
  | star (p w s : List Char) :
      WildMatch p s → WildMatch ('*' :: p) (w ++ s)

/-! ## Exclude list (src/concat.c:332-536) -/

def MAX_EXCLUDES : Nat := 1000

/-- Embeds `hash_string` (src/concat.c:333): djb2 over the pattern bytes in a
32-bit unsigned accumulator, reduced `% MAX_EXCLUDES`. -/
def hash_string (s : List Char) : Nat :=
  (s.foldl (fun h c => (h * 33 + c.toNat) % 4294967296) 5381) % MAX_EXCLUDES

/-- The `ExcludeList` hash table (src/concat.h:92-97): `MAX_EXCLUDES` chained
buckets plus a pattern count. Bucket `i` holds the patterns whose djb2 hash
is `i`, most recently added first. -/
structure ExcludeList where
  buckets : Nat → List (List Char)
  count : Nat

/-- Embeds `init_exclude_list` (src/concat.c:404): all buckets empty, count 0. -/
def init_exclude_list : ExcludeList :=
  { buckets := fun _ => [], count := 0 }

/-- Embeds `add_exclude_pattern` (src/concat.c:414). A NULL pointer is
modelled as `none`. NULL and empty patterns are rejected up front; a
duplicate already present in its bucket is ignored; otherwise the pattern is
prepended to its bucket and the count incremented. -/
def add_exclude_pattern (ex : ExcludeList) (pattern : Option (List Char)) : ExcludeList :=
  match pattern with
  | none => ex
  | some p =>
    if p.length = 0 then ex
    else
      let bucket := hash_string p
      if p ∈ ex.buckets bucket then ex
      else
        { buckets := fun i => if i = bucket then p :: ex.buckets i else ex.buckets i,
          count := ex.count + 1 }

/-- Embeds `is_excluded` (src/concat.c:482): every bucket is scanned against
the full path, then — when the path contains a separator — against its
basename (the part after the last `/`). -/
def is_excluded (path : List Char) (ex : ExcludeList) : Bool :=
  let full := (List.range MAX_EXCLUDES).any fun i =>
    (ex.buckets i).any fun pat => matchPattern pat path
  if full then true
  else
    match (path.reverse.takeWhile (· ≠ '/')).reverse, path.contains '/' with
    | base, true =>
        (List.range MAX_EXCLUDES).any fun i =>
          (ex.buckets i).any fun pat => matchPattern pat base
    | _, false => false

/-! ## Binary classifier (`is_binary_file`, src/concat.c:589-649)

The file-system side (open/fread of up to `BINARY_CHECK_SIZE = 8192` bytes)
is abstracted away: the classifier is embedded as a function of the sampled
byte buffer, exactly the loop plus the three threshold tests. -/

def BINARY_CHECK_SIZE : Nat := 8192

/-- The counting loop of `is_binary_file` (src/concat.c:616-633): walks the
buffer accumulating `(null_count, control_count, high_bit_count)` with the
same `if`/`else if` chain as the C code. -/
def binaryScan : Nat × Nat × Nat → List Nat → Nat × Nat × Nat
  | acc, [] => acc
  | (nc, cc, hc), b :: rest =>
    if b = 0 then binaryScan (nc + 1, cc, hc) rest
    else if b < 32 ∧ b ≠ 9 ∧ b ≠ 10 ∧ b ≠ 13 ∧ b ≠ 12 ∧ b ≠ 11 then
      binaryScan (nc, cc + 1, hc) rest
    else if b > 127 then binaryScan (nc, cc, hc + 1) rest
    else binaryScan (nc, cc, hc) rest

/-- Embeds the classification part of `is_binary_file` (src/concat.c:607-648)
applied to the head sample: empty sample is text; otherwise binary iff any
NUL byte, or `control_count > bytes_read / 10`, or
`high_bit_count > bytes_read * 3 / 4` (C integer division). -/
def is_binary_buffer (buf : List Nat) : Bool :=
  if buf.length = 0 then false
  else
    let counts := binaryScan (0, 0, 0) buf
    if counts.1 > 0 then true
    else if counts.2.1 > buf.length / 10 then true
    else if counts.2.2 > buf.length * 3 / 4 then true
    else false

/-- Modelled from the spec: the claim's classification predicate — at least
one NUL byte, or more than 10% of the bytes are control characters below
0x20 other than tab, LF, CR, FF, VT, or more than 75% of the bytes have the
high bit set. -/
def specIsBinary (buf : List Nat) : Prop :=
  0 ∈ buf
    ∨ 10 * (buf.countP fun b => b < 32 ∧ b ≠ 9 ∧ b ≠ 10 ∧ b ≠ 13 ∧ b ≠ 12 ∧ b ≠ 11) > buf.length
    ∨ 4 * (buf.countP fun b => 128 ≤ b) > 3 * buf.length

instance (buf : List Nat) : Decidable (specIsBinary buf) := by
  unfold specIsBinary; infer_instance

/-- The three per-byte tests of the counting loop, named for the bridging
lemmas: NUL byte, non-whitespace control byte (excluding a NUL, which the
loop counts separately), high-bit byte (a non-NUL, non-control byte above
127). -/
def nullP (b : Nat) : Bool := b == 0

def ctrlP (b : Nat) : Bool :=
  !(b == 0) && decide (b < 32 ∧ b ≠ 9 ∧ b ≠ 10 ∧ b ≠ 13 ∧ b ≠ 12 ∧ b ≠ 11)

def highP (b : Nat) : Bool :=
  !(b == 0) && !decide (b < 32 ∧ b ≠ 9 ∧ b ≠ 10 ∧ b ≠ 13 ∧ b ≠ 12 ∧ b ≠ 11) && decide (b > 127)

/-! ## Size formatter (`format_size`, src/concat.c:567-587)

The C code divides a `double` by 1024 until it drops below 1024.0 or the
unit index reaches 6; every quantity the proved claims touch is an exact
integer below 2^53, where `double` arithmetic is exact, so the accumulator
is modelled as a rational. -/

def format_size_units : List String := ["B", "KB", "MB", "GB", "TB", "PB", "EB"]

/-- The `while (size_d >= 1024.0 && unit_index < 6)` loop of `format_size`
(src/concat.c:573-577). -/
def formatSizeLoop (sd : ℚ) (unit_index : Nat) : ℚ × Nat :=
  if h : 1024 ≤ sd ∧ unit_index < 6 then formatSizeLoop (sd / 1024) (unit_index + 1)
  else (sd, unit_index)
termination_by 6 - unit_index
decreasing_by omega

/-- Rendering of the `%.2f` branch: the quantity rounded to hundredths. The
claims proved here only touch the `unit_index == 0` branch, which prints the
exact integer. -/
def renderHundredths (q : ℚ) : String :=
  toString (round (q * 100)) ++ "/100"

/-- Embeds `format_size` (src/concat.c:567): loop, then either
`"%llu %s"` with the exact byte count (unit index 0) or `"%.2f %s"`. -/
def format_size (size : Nat) : String :=
  let r := formatSizeLoop (size : ℚ) 0
  if r.2 = 0 then toString size ++ " " ++ format_size_units.getD r.2 ""
  else renderHundredths r.1 ++ " " ++ format_size_units.getD r.2 ""

/-! ## Plugin host (`process_file_through_plugins`, src/concat.c:199-329)

A loaded plugin is its descriptor (src/concat.h:55-74): an `index` stamped
at load time plus the per-file operations. `process_chunk` and `file_end`
return `none` for a non-zero C status; a returned `some bytes` is the
output buffer (possibly empty, the C `output == NULL` / `size == 0` case).
`file_start` returning `none` is the NULL-context case. `PluginEvent`
records every lifecycle call the host makes, so lifecycle claims are
statements about the event trace. -/

def PLUGIN_CHUNK_SIZE : Nat := 4096

structure PluginContext where
  total_processed : Nat
deriving DecidableEq

structure StreamingPlugin where
  index : Nat
  file_start : List Char → Option PluginContext
  process_chunk : PluginContext → List Nat → Option (List Nat)
  file_end : PluginContext → Option (List Nat)

inductive PluginEvent
  | file_start_call (index : Nat)
  | process_chunk_call (index : Nat)
  | file_end_call (index : Nat) (discarded : Option (List Nat))
  | file_cleanup_call (index : Nat)
deriving DecidableEq

/-- The per-chunk pipeline loop of `process_file_through_plugins`
(src/concat.c:250-296): each plugin with a context is fed the current
buffer; a non-zero status discards that plugin's output and keeps the
current buffer; a non-empty output becomes the next plugin's input and
bumps that plugin's `total_processed` by the new size; an empty output
keeps the current buffer. Returns the final buffer, the contexts after the
loop, and the calls made. -/
def pluginPipeline : List (StreamingPlugin × Option PluginContext) → List Nat →
    List Nat × List (StreamingPlugin × Option PluginContext) × List PluginEvent
  | [], current_input => (current_input, [], [])
  | (p, none) :: rest, current_input =>
    let r := pluginPipeline rest current_input
    (r.1, (p, none) :: r.2.1, r.2.2)
  | (p, some c) :: rest, current_input =>
    match p.process_chunk c current_input with
    | none =>
      let r := pluginPipeline rest current_input
      (r.1, (p, some c) :: r.2.1, PluginEvent.process_chunk_call p.index :: r.2.2)
    | some out =>
      if out = [] then
        let r := pluginPipeline rest current_input
        (r.1, (p, some c) :: r.2.1, PluginEvent.process_chunk_call p.index :: r.2.2)
      else
        let r := pluginPipeline rest out
        (r.1, (p, some { total_processed := c.total_processed + out.length }) :: r.2.1,
          PluginEvent.process_chunk_call p.index :: r.2.2)

/-- The `file_end`/`file_cleanup` loop of `process_file_through_plugins`
(src/concat.c:298-321). The bytes `file_end` returns are recorded in the
event (the C code frees them without writing, src/concat.c:308-313) and do
not reach the output. -/
def fileEndEvents : List (StreamingPlugin × Option PluginContext) → List PluginEvent
  | [] => []
  | (_, none) :: rest => fileEndEvents rest
  | (p, some c) :: rest =>
    PluginEvent.file_end_call p.index (p.file_end c)
      :: PluginEvent.file_cleanup_call p.index :: fileEndEvents rest

/-- Embeds `process_file_through_plugins` (src/concat.c:199): with an empty
chain the input is copied through unchanged; otherwise `file_start` is
called on every plugin, the input is piped through `pluginPipeline`, and
`file_end`/`file_cleanup` close every live context. Returns the output
buffer and the lifecycle calls made during this one invocation. -/
def process_file_through_plugins (chain : List StreamingPlugin) (relative_path : List Char)
    (input : List Nat) : List Nat × List PluginEvent :=
  match chain with
  | [] => (input, [])
  | _ :: _ =>
    let withCtx := chain.map fun p => (p, p.file_start relative_path)
    let startEvs := chain.map fun p => PluginEvent.file_start_call p.index
    let r := pluginPipeline withCtx input
    (r.1, startEvs ++ r.2.2 ++ fileEndEvents r.2.1)

/-- The `fread` loop of the content pass (src/concat.c:1311-1346): the file
is consumed in successive chunks of at most `PLUGIN_CHUNK_SIZE` bytes until
empty. -/
def readChunks (l : List Nat) : List (List Nat) :=
  if l = [] then []
  else l.take PLUGIN_CHUNK_SIZE :: readChunks (l.drop PLUGIN_CHUNK_SIZE)
termination_by l.length
decreasing_by
  rename_i h
  have : 0 < l.length := List.length_pos.mpr h
  simp [PLUGIN_CHUNK_SIZE]
  omega

/-- One iteration of the content-pass chunk loop (src/concat.c:1313-1346):
with a NULL plugin manager the chunk is written verbatim; otherwise it goes
through `process_file_through_plugins` and the result is written when
non-empty. -/
def writeProcessedChunk (manager : Option (List StreamingPlugin)) (relative_path : List Char)
    (chunk : List Nat) : List Nat × List PluginEvent :=
  match manager with
  | none => (chunk, [])
  | some chain =>
    let r := process_file_through_plugins chain relative_path chunk
    ((if r.1 = [] then [] else r.1), r.2)

/-- The bytes a file's body contributes to the output sink in the content
pass, together with the plugin lifecycle calls made while producing them:
the concatenation over `readChunks` of each processed chunk. -/
def emitFileBody (manager : Option (List StreamingPlugin)) (relative_path : List Char)
    (content : List Nat) : List Nat × List PluginEvent :=
  let rs := (readChunks content).map (writeProcessedChunk manager relative_path)
  ((rs.map Prod.fst).flatten, (rs.map Prod.snd).flatten)

/-- Number of `file_start` calls for plugin `index` in an event trace. -/
def countFileStart (index : Nat) (evs : List PluginEvent) : Nat :=
  evs.countP fun e => match e with
    | PluginEvent.file_start_call j => j == index
    | _ => false

/-! ## Concrete plugins and trees used as witnesses and counterexamples -/

/-- Identity-shaped plugin used as a concrete witness: it always allocates a
context, returns the input chunk as its output, and flushes nothing. -/
def idPlugin : StreamingPlugin where
  index := 0
  file_start := fun _ => some { total_processed := 0 }
  process_chunk := fun _ input => some input
  file_end := fun _ => some []

/-- Plugin whose `process_chunk` always reports a non-zero status. -/
def failPlugin : StreamingPlugin where
  index := 1
  file_start := fun _ => some { total_processed := 0 }
  process_chunk := fun _ _ => none
  file_end := fun _ => none

/-- Pass-through plugin whose `file_end` returns tail bytes `"TAIL"`. -/
def tailPlugin : StreamingPlugin where
  index := 0
  file_start := fun _ => some { total_processed := 0 }
  process_chunk := fun _ _ => some []
  file_end := fun _ => some [84, 65, 73, 76]

/-! ## Traversal engine (`process_directory_recursive`, src/concat.c:778-1357)

The POSIX branch. A directory's `readdir` stream is modelled as the list of
its entries in host order; `lstat` classification is baked into the entry
constructors (`symBroken` is a symlink whose target `stat` fails,
`inaccessible` an entry whose `lstat` fails). A symlink's target carries its
own `(st_dev, st_ino)` pair and — for directories — the entries `opendir`
would yield through the link. Following a real cycle unfolds it into a
finite tree; the inode tracker is what stops the C code on such shapes. -/

abbrev Ino := Nat × Nat

def MAX_PATH : Nat := 4096

inductive FSEntry : Type where
  | file (name : List Char) (ino : Ino) (content : List Nat)
  | dir (name : List Char) (ino : Ino) (children : List FSEntry)
  | symBroken (name : List Char)
  | symToFile (name : List Char) (ino : Ino) (content : List Nat)
  | symToDir (name : List Char) (ino : Ino) (children : List FSEntry)
  | inaccessible (name : List Char)

def FSEntry.name : FSEntry → List Char
  | .file n _ _ => n
  | .dir n _ _ => n
  | .symBroken n => n
  | .symToFile n _ _ => n
  | .symToDir n _ _ => n
  | .inaccessible n => n

inductive BinaryHandling
  | BINARY_SKIP
  | BINARY_INCLUDE
  | BINARY_PLACEHOLDER
deriving DecidableEq

inductive SymlinkHandling
  | SYMLINK_SKIP
  | SYMLINK_FOLLOW
  | SYMLINK_INCLUDE
  | SYMLINK_PLACEHOLDER
deriving DecidableEq

structure Config where
  excludes : ExcludeList
  binary_handling : BinaryHandling
  symlink_handling : SymlinkHandling
  show_size : Bool
  base_len : Nat
  plugin_manager : Option (List StreamingPlugin)

/-- Embeds `has_inode` (src/concat.c:693): linear scan for `(device, inode)`. -/
def has_inode (tracker : List Ino) (i : Ino) : Bool :=
  tracker.contains i

/-- Embeds `add_inode` (src/concat.c:660): report a duplicate without
mutating, else prepend the new node. -/
def add_inode (tracker : List Ino) (i : Ino) : List Ino :=
  if tracker.contains i then tracker else i :: tracker

/-- Length of `safe_path_join(dest, path1, path2)`'s result in characters
(src/concat.c:538): `len1 + separator (iff len1 > 0) + len2`; the join fails
iff this length plus the terminating NUL exceeds `MAX_PATH`. -/
def joinLen (len1 len2 : Nat) : Nat :=
  len1 + (if 0 < len1 then 1 else 0) + len2

/-- The shared per-entry prelude of both passes (src/concat.c:993-1018):
skip `.`/`..`; build `new_relative_path` (joining, or `strncpy` truncation
when the current relative path is empty); skip if the relative or full join
overflows `MAX_PATH`; skip if excluded. Returns the new relative path of an
entry that survives. -/
def preludeNewRel (cfg : Config) (rel n : List Char) : Option (List Char) :=
  if n = ['.'] ∨ n = ['.', '.'] then none
  else
    let nr : Option (List Char) :=
      if 0 < rel.length then
        if joinLen rel.length n.length + 1 > MAX_PATH then none
        else some (rel ++ '/' :: n)
      else some (if n.length ≤ MAX_PATH - 1 then n else n.take (MAX_PATH - 1))
    match nr with
    | none => none
    | some nr =>
      if joinLen (joinLen cfg.base_len rel.length) n.length + 1 > MAX_PATH then none
      else if is_excluded nr cfg.excludes then none
      else some nr

/-- One structure-pass output line (src/concat.c:1028-1163), with the
`printf` arguments it is built from: indent level, optional formatted size
(present iff `show_size`), and the entry name. -/
inductive StructLine
  | dirLine (level : Nat) (name : List Char)
  | fileLine (level : Nat) (size : Option Nat) (name : List Char)
  | brokenLine (level : Nat) (name : List Char)
  | skippedLine (level : Nat) (name : List Char)
  | symDirPlaceholderLine (level : Nat) (name : List Char)
  | symFilePlaceholderLine (level : Nat) (size : Option Nat) (name : List Char)
  | loopLine (level : Nat) (name : List Char)
  | followingLine (level : Nat) (name : List Char)
  | symFileLine (level : Nat) (size : Option Nat) (name : List Char)
deriving DecidableEq

/-- One content-pass emission (src/concat.c:1165-1351): per-file header
(`(symlink)`-marked for followed symlink files), streamed body bytes, the
two-newline trailer, or one of the placeholder comments. -/
inductive ContentOut
  | header (relative_path : List Char) (symlink : Bool)
  | bodyBytes (bytes : List Nat)
  | trailer
  | binaryPlaceholder (relative_path : List Char) (symlink : Bool)
  | brokenPlaceholder (relative_path : List Char)
  | symlinkPlaceholder (relative_path : List Char)
deriving DecidableEq

structure StructRes where
  lines : List StructLine
  visited : List (List Char)
  tracker : List Ino
  symVisited : List Ino
  total_size : Nat

structure ContentRes where
  out : List ContentOut
  visited : List (List Char)
  tracker : List Ino
  symVisited : List Ino
  inoVisits : List Ino

def sizeOpt (cfg : Config) (sz : Nat) : Option Nat :=
  if cfg.show_size then some sz else none

mutual

/-- Structure pass of `process_directory_recursive` (`write_structure == 1`,
src/concat.c:1028-1163) for one classified entry. `visited` records every
relative path reaching the classification step; `symVisited` the inodes
inserted into the tracker; `total_size` the accumulated `st_size`s. -/
def structPassEntry (cfg : Config) (level : Nat) (tracker : List Ino) (new_rel : List Char) :
    FSEntry → StructRes
  | .file nm _ content =>
    ⟨[.fileLine level (sizeOpt cfg content.length) nm], [new_rel], tracker, [], content.length⟩
  | .dir nm _ children =>
    if joinLen cfg.base_len new_rel.length + 1 > MAX_PATH then
      ⟨[.dirLine level nm], [new_rel], tracker, [], 0⟩
    else
      let sub := structPassList cfg (level + 1) tracker new_rel children
      ⟨.dirLine level nm :: sub.lines, new_rel :: sub.visited, sub.tracker, sub.symVisited,
        sub.total_size⟩
  | .symBroken nm =>
    ⟨[.brokenLine level nm], [new_rel], tracker, [], 0⟩
  | .symToFile nm ino content =>
    match cfg.symlink_handling with
    | .SYMLINK_SKIP => ⟨[.skippedLine level nm], [new_rel], tracker, [], 0⟩
    | .SYMLINK_PLACEHOLDER =>
      ⟨[.symFilePlaceholderLine level (sizeOpt cfg content.length) nm], [new_rel], tracker, [],
        content.length⟩
    | _ =>
      if has_inode tracker ino then ⟨[.loopLine level nm], [new_rel], tracker, [], 0⟩
      else
        ⟨[.symFileLine level (sizeOpt cfg content.length) nm], [new_rel],
          add_inode tracker ino, [ino], content.length⟩
  | .symToDir nm ino children =>
    match cfg.symlink_handling with
    | .SYMLINK_SKIP => ⟨[.skippedLine level nm], [new_rel], tracker, [], 0⟩
    | .SYMLINK_PLACEHOLDER => ⟨[.symDirPlaceholderLine level nm], [new_rel], tracker, [], 0⟩
    | .SYMLINK_FOLLOW =>
      if has_inode tracker ino then ⟨[.loopLine level nm], [new_rel], tracker, [], 0⟩
      else
        if joinLen cfg.base_len new_rel.length + 1 > MAX_PATH then
          ⟨[.followingLine level nm], [new_rel], add_inode tracker ino, [ino], 0⟩
        else
          let sub := structPassList cfg (level + 1) (add_inode tracker ino) new_rel children
          ⟨.followingLine level nm :: sub.lines, new_rel :: sub.visited, sub.tracker,
            ino :: sub.symVisited, sub.total_size⟩
    | .SYMLINK_INCLUDE =>
      if has_inode tracker ino then ⟨[.loopLine level nm], [new_rel], tracker, [], 0⟩
      else ⟨[], [new_rel], add_inode tracker ino, [ino], 0⟩
  | .inaccessible _ => ⟨[], [], tracker, [], 0⟩

/-- The `readdir` loop of the structure pass: shared prelude, then per-entry
processing, threading the inode tracker left to right. -/
def structPassList (cfg : Config) (level : Nat) (tracker : List Ino) (rel : List Char) :
    List FSEntry → StructRes
  | [] => ⟨[], [], tracker, [], 0⟩
  | e :: rest =>
    let r1 : StructRes :=
      match preludeNewRel cfg rel e.name with
      | none => ⟨[], [], tracker, [], 0⟩
      | some nr => structPassEntry cfg level tracker nr e
    let r2 := structPassList cfg level r1.tracker rel rest
    ⟨r1.lines ++ r2.lines, r1.visited ++ r2.visited, r2.tracker, r1.symVisited ++ r2.symVisited,
      r1.total_size + r2.total_size⟩

end

mutual

/-- Content pass of `process_directory_recursive` (`write_structure == 0`,
src/concat.c:1165-1351) for one classified entry. `inoVisits` records the
`(st_dev, st_ino)` of every directory recursed into and every file whose
contents are emitted. -/
def contentPassEntry (cfg : Config) (level : Nat) (tracker : List Ino) (new_rel : List Char) :
    FSEntry → ContentRes
  | .file _ ino content =>
    let bin := is_binary_buffer (content.take BINARY_CHECK_SIZE)
    if bin = true ∧ cfg.binary_handling = .BINARY_SKIP then
      ⟨[], [new_rel], tracker, [], []⟩
    else if bin = true ∧ cfg.binary_handling = .BINARY_PLACEHOLDER then
      ⟨[.binaryPlaceholder new_rel false], [new_rel], tracker, [], []⟩
    else
      ⟨[.header new_rel false,
        .bodyBytes (emitFileBody cfg.plugin_manager new_rel content).1, .trailer],
        [new_rel], tracker, [], [ino]⟩
  | .dir _ ino children =>
    if joinLen cfg.base_len new_rel.length + 1 > MAX_PATH then
      ⟨[], [new_rel], tracker, [], []⟩
    else
      let sub := contentPassList cfg (level + 1) tracker new_rel children
      ⟨sub.out, new_rel :: sub.visited, sub.tracker, sub.symVisited, ino :: sub.inoVisits⟩
  | .symBroken _ =>
    match cfg.symlink_handling with
    | .SYMLINK_SKIP => ⟨[], [new_rel], tracker, [], []⟩
    | .SYMLINK_PLACEHOLDER => ⟨[.brokenPlaceholder new_rel], [new_rel], tracker, [], []⟩
    | _ => ⟨[], [new_rel], tracker, [], []⟩
  | .symToFile _ ino content =>
    match cfg.symlink_handling with
    | .SYMLINK_SKIP => ⟨[], [new_rel], tracker, [], []⟩
    | .SYMLINK_PLACEHOLDER => ⟨[.symlinkPlaceholder new_rel], [new_rel], tracker, [], []⟩
    | _ =>
      if has_inode tracker ino then ⟨[], [new_rel], tracker, [], []⟩
      else
        let bin := is_binary_buffer (content.take BINARY_CHECK_SIZE)
        if bin = true ∧ cfg.binary_handling = .BINARY_SKIP then
          ⟨[], [new_rel], add_inode tracker ino, [ino], []⟩
        else if bin = true ∧ cfg.binary_handling = .BINARY_PLACEHOLDER then
          ⟨[.binaryPlaceholder new_rel true], [new_rel], add_inode tracker ino, [ino], []⟩
        else
          ⟨[.header new_rel true,
            .bodyBytes (emitFileBody cfg.plugin_manager new_rel content).1, .trailer],
            [new_rel], add_inode tracker ino, [ino], [ino]⟩
  | .symToDir _ ino children =>
    match cfg.symlink_handling with
    | .SYMLINK_SKIP => ⟨[], [new_rel], tracker, [], []⟩
    | .SYMLINK_PLACEHOLDER => ⟨[.symlinkPlaceholder new_rel], [new_rel], tracker, [], []⟩
    | .SYMLINK_FOLLOW =>
      if has_inode tracker ino then ⟨[], [new_rel], tracker, [], []⟩
      else
        if joinLen cfg.base_len new_rel.length + 1 > MAX_PATH then
          ⟨[], [new_rel], add_inode tracker ino, [ino], []⟩
        else
          let sub := contentPassList cfg (level + 1) (add_inode tracker ino) new_rel children
          ⟨sub.out, new_rel :: sub.visited, sub.tracker, ino :: sub.symVisited,
            ino :: sub.inoVisits⟩
    | .SYMLINK_INCLUDE =>
      if has_inode tracker ino then ⟨[], [new_rel], tracker, [], []⟩
      else ⟨[], [new_rel], add_inode tracker ino, [ino], []⟩
  | .inaccessible _ => ⟨[], [], tracker, [], []⟩

/-- The `readdir` loop of the content pass. -/
def contentPassList (cfg : Config) (level : Nat) (tracker : List Ino) (rel : List Char) :
    List FSEntry → ContentRes
  | [] => ⟨[], [], tracker, [], []⟩
  | e :: rest =>
    let r1 : ContentRes :=
      match preludeNewRel cfg rel e.name with
      | none => ⟨[], [], tracker, [], []⟩
      | some nr => contentPassEntry cfg level tracker nr e
    let r2 := contentPassList cfg level r1.tracker rel rest
    ⟨r1.out ++ r2.out, r1.visited ++ r2.visited, r2.tracker, r1.symVisited ++ r2.symVisited,
      r1.inoVisits ++ r2.inoVisits⟩

end

/-- The structure pass as driven by `process_directory` (src/concat.c:1377):
root relative path `""`, level 0, fresh empty inode tracker; the walker
itself first joins `base_path` with `""` and gives up on overflow
(src/concat.c:789-793). -/
def process_directory_structure (cfg : Config) (root : List FSEntry) : StructRes :=
  if joinLen cfg.base_len 0 + 1 > MAX_PATH then ⟨[], [], [], [], 0⟩
  else structPassList cfg 0 [] [] root

/-- The content pass as driven by `process_directory` (src/concat.c:1405):
the inode tracker is freed and re-initialised, so the pass starts fresh. -/
def process_directory_content (cfg : Config) (root : List FSEntry) : ContentRes :=
  if joinLen cfg.base_len 0 + 1 > MAX_PATH then ⟨[], [], [], [], []⟩
  else contentPassList cfg 0 [] [] root

/-- A directory `d` containing file `f`, and a symlink `s` whose target is
the same directory: both `d`'s subtree and `s`'s target carry the same
`(st_dev, st_ino)` pairs, exactly what `lstat`/`stat` report when `s -> d`
on a real file system. -/
def loopTree : List FSEntry :=
  [FSEntry.dir ['d'] (0, 1) [FSEntry.file ['f'] (0, 2) [104]],
   FSEntry.symToDir ['s'] (0, 1) [FSEntry.file ['f'] (0, 2) [104]]]

/-- Follow-symlinks configuration with no excludes and no plugins. -/
def followCfg : Config :=
  { excludes := init_exclude_list, binary_handling := BinaryHandling.BINARY_INCLUDE,
    symlink_handling := SymlinkHandling.SYMLINK_FOLLOW, show_size := false, base_len := 1,
    plugin_manager := none }

/-! ## Helper lemmas -/

/-! ## Chunking lemmas -/

theorem readChunks_nil : readChunks [] = [] := by
  rw [readChunks]; simp

theorem readChunks_flatten : ∀ (n : Nat) (l : List Nat), l.length ≤ n → (readChunks l).flatten = l := by
  intro n
  induction n with
  | zero =>
    intro l h
    have : l = [] := by
      cases l with
      | nil => rfl
      | cons a t => simp at h
    subst this
    simp [readChunks_nil]
  | succ n ih =>
    intro l h
    by_cases hl : l = []
    · subst hl; simp [readChunks_nil]
    · rw [readChunks, if_neg hl]
      have hdrop : (l.drop PLUGIN_CHUNK_SIZE).length ≤ n := by
        have h0 : 0 < l.length := List.length_pos.mpr hl
        simp [PLUGIN_CHUNK_SIZE]
        omega
      simp only [List.flatten_cons]
      rw [ih _ hdrop, List.take_append_drop]

theorem readChunks_ne_nil : ∀ (n : Nat) (l c : List Nat), l.length ≤ n → c ∈ readChunks l → c ≠ [] := by
  intro n
  induction n with
  | zero =>
    intro l c h hc
    have : l = [] := by
      cases l with
      | nil => rfl
      | cons a t => simp at h
    subst this
    simp [readChunks_nil] at hc
  | succ n ih =>
    intro l c h hc
    by_cases hl : l = []
    · subst hl; simp [readChunks_nil] at hc
    · rw [readChunks, if_neg hl] at hc
      rcases List.mem_cons.mp hc with hc | hc
      · subst hc
        simp [PLUGIN_CHUNK_SIZE, List.take_eq_nil_iff, hl]
      · exact ih (l.drop PLUGIN_CHUNK_SIZE) c
          (by have h0 : 0 < l.length := List.length_pos.mpr hl
              simp [PLUGIN_CHUNK_SIZE]; omega) hc

theorem readChunks_small (l : List Nat) (h1 : l ≠ []) (h2 : l.length ≤ PLUGIN_CHUNK_SIZE) :
    readChunks l = [l] := by
  rw [readChunks, if_neg h1, List.take_of_length_le h2, List.drop_eq_nil_of_le h2, readChunks_nil]

theorem replicate_4097_ne_nil (b : Nat) : List.replicate 4097 b ≠ [] := by
  intro h
  have h2 := congrArg List.length h
  rw [List.length_replicate, List.length_nil] at h2
  exact absurd h2 (by norm_num)

theorem readChunks_replicate_4097 (b : Nat) :
    readChunks (List.replicate 4097 b) = [List.replicate 4096 b, [b]] := by
  rw [readChunks, if_neg (replicate_4097_ne_nil b)]
  have ht : (List.replicate 4097 b).take PLUGIN_CHUNK_SIZE = List.replicate 4096 b := by
    rw [List.take_replicate]; norm_num [PLUGIN_CHUNK_SIZE]
  have hd : (List.replicate 4097 b).drop PLUGIN_CHUNK_SIZE = [b] := by
    rw [List.drop_replicate]; norm_num [PLUGIN_CHUNK_SIZE]
  rw [ht, hd, readChunks_small [b] (by simp) (by simp [PLUGIN_CHUNK_SIZE])]

theorem binaryScan_eq (l : List Nat) : ∀ nc cc hc,
    binaryScan (nc, cc, hc) l =
      (nc + l.countP nullP, cc + l.countP ctrlP, hc + l.countP highP) := by
  induction l with
  | nil => intro nc cc hc; simp [binaryScan]
  | cons b rest ih =>
    intro nc cc hc
    by_cases h0 : b = 0
    · have hstep : binaryScan (nc, cc, hc) (b :: rest) = binaryScan (nc + 1, cc, hc) rest := by
        rw [binaryScan, if_pos h0]
      have e1 : nullP b = true := by simp [nullP, h0]
      have e2 : ctrlP b = false := by simp [ctrlP, h0]
      have e3 : highP b = false := by simp [highP, h0]
      rw [hstep, ih, List.countP_cons, List.countP_cons, List.countP_cons, e1, e2, e3]
      simp [Prod.ext_iff]; omega
    · by_cases hcnd : b < 32 ∧ b ≠ 9 ∧ b ≠ 10 ∧ b ≠ 13 ∧ b ≠ 12 ∧ b ≠ 11
      · have hstep : binaryScan (nc, cc, hc) (b :: rest) = binaryScan (nc, cc + 1, hc) rest := by
          rw [binaryScan, if_neg h0, if_pos hcnd]
        have e1 : nullP b = false := by simp [nullP, h0]
        have e2 : ctrlP b = true := by simp [ctrlP, h0, hcnd]
        have e3 : highP b = false := by simp [highP, h0, hcnd]
        rw [hstep, ih, List.countP_cons, List.countP_cons, List.countP_cons, e1, e2, e3]
        simp [Prod.ext_iff]; omega
      · by_cases hhi : b > 127
        · have hstep : binaryScan (nc, cc, hc) (b :: rest) = binaryScan (nc, cc, hc + 1) rest := by
            rw [binaryScan, if_neg h0, if_neg hcnd, if_pos hhi]
          have e1 : nullP b = false := by simp [nullP, h0]
          have e2 : ctrlP b = false := by simp [ctrlP, hcnd]
          have e3 : highP b = true := by simp [highP, h0, hcnd, hhi]
          rw [hstep, ih, List.countP_cons, List.countP_cons, List.countP_cons, e1, e2, e3]
          simp [Prod.ext_iff]; omega
        · have hstep : binaryScan (nc, cc, hc) (b :: rest) = binaryScan (nc, cc, hc) rest := by
            rw [binaryScan, if_neg h0, if_neg hcnd, if_neg hhi]
          have e1 : nullP b = false := by simp [nullP, h0]
          have e2 : ctrlP b = false := by simp [ctrlP, hcnd]
          have e3 : highP b = false := by simp [highP, hhi]
          rw [hstep, ih, List.countP_cons, List.countP_cons, List.countP_cons, e1, e2, e3]
          simp

theorem is_binary_buffer_iff (buf : List Nat) :
    is_binary_buffer buf = true ↔
      buf.length ≠ 0 ∧ (0 < buf.countP nullP ∨ buf.length / 10 < buf.countP ctrlP
        ∨ buf.length * 3 / 4 < buf.countP highP) := by
  unfold is_binary_buffer
  rw [binaryScan_eq]
  by_cases h : buf.length = 0
  · simp [h]
  · simp only [h, if_false, Nat.zero_add, ne_eq, not_false_eq_true, true_and]
    split_ifs with h1 h2 h3
    · simp [h1]
    · simp [h2]
    · simp [h3]
    · simp [h1, h2, h3]

theorem formatSizeLoop_idx_le :
    ∀ (fuel : Nat) (sd : ℚ) (idx : Nat), 6 - idx ≤ fuel → idx ≤ 6 →
      (formatSizeLoop sd idx).2 ≤ 6 := by
  intro fuel
  induction fuel with
  | zero =>
    intro sd idx hf h6
    rw [formatSizeLoop]
    have : ¬ (1024 ≤ sd ∧ idx < 6) := by
      rintro ⟨-, hlt⟩; omega
    rw [dif_neg this]
    exact h6
  | succ n ih =>
    intro sd idx hf h6
    rw [formatSizeLoop]
    split
    · exact ih _ _ (by omega) (by rename_i hg; omega)
    · exact h6

theorem any_const_false {α : Type} (l : List α) : (l.any fun _ => false) = false := by
  induction l with
  | nil => rfl
  | cons a t ih => simp only [List.any_cons, ih, Bool.false_or]

theorem is_excluded_init (path : List Char) : is_excluded path init_exclude_list = false := by
  unfold is_excluded init_exclude_list
  cases hc : path.contains '/' <;>
    simp only [List.any_nil, any_const_false, hc, Bool.false_eq_true, if_false]

theorem not_mem_of_has_inode_false (tracker : List Ino) (i : Ino)
    (h : has_inode tracker i = false) : i ∉ tracker := by
  simp only [has_inode] at h
  simpa using h

theorem add_inode_fresh (tracker : List Ino) (i : Ino) (h : has_inode tracker i = false) :
    add_inode tracker i = i :: tracker := by
  simp [add_inode, not_mem_of_has_inode_false tracker i h]

mutual

theorem passesAgree_entry (cfg : Config) (level : Nat) (tracker : List Ino)
    (new_rel : List Char) (e : FSEntry) :
    (structPassEntry cfg level tracker new_rel e).visited
        = (contentPassEntry cfg level tracker new_rel e).visited
      ∧ (structPassEntry cfg level tracker new_rel e).tracker
        = (contentPassEntry cfg level tracker new_rel e).tracker
      ∧ (structPassEntry cfg level tracker new_rel e).symVisited
        = (contentPassEntry cfg level tracker new_rel e).symVisited := by
  cases e with
  | file nm ino content =>
    simp only [structPassEntry, contentPassEntry]
    split_ifs <;> simp
  | dir nm ino children =>
    by_cases hj : joinLen cfg.base_len new_rel.length + 1 > MAX_PATH
    · simp [structPassEntry, contentPassEntry, hj]
    · have ih := passesAgree_list cfg (level + 1) tracker new_rel children
      simp [structPassEntry, contentPassEntry, hj, ih.1, ih.2.1, ih.2.2]
  | symBroken nm =>
    cases h : cfg.symlink_handling <;> simp [structPassEntry, contentPassEntry, h]
  | symToFile nm ino content =>
    cases h : cfg.symlink_handling with
    | SYMLINK_SKIP => simp [structPassEntry, contentPassEntry, h]
    | SYMLINK_PLACEHOLDER => simp [structPassEntry, contentPassEntry, h]
    | SYMLINK_FOLLOW =>
      by_cases hi : has_inode tracker ino
      · simp [structPassEntry, contentPassEntry, h, hi]
      · simp only [structPassEntry, contentPassEntry, h, hi, Bool.false_eq_true, if_false]
        split_ifs <;> simp
    | SYMLINK_INCLUDE =>
      by_cases hi : has_inode tracker ino
      · simp [structPassEntry, contentPassEntry, h, hi]
      · simp only [structPassEntry, contentPassEntry, h, hi, Bool.false_eq_true, if_false]
        split_ifs <;> simp
  | symToDir nm ino children =>
    cases h : cfg.symlink_handling with
    | SYMLINK_SKIP => simp [structPassEntry, contentPassEntry, h]
    | SYMLINK_PLACEHOLDER => simp [structPassEntry, contentPassEntry, h]
    | SYMLINK_FOLLOW =>
      by_cases hi : has_inode tracker ino
      · simp [structPassEntry, contentPassEntry, h, hi]
      · by_cases hj : joinLen cfg.base_len new_rel.length + 1 > MAX_PATH
        · simp [structPassEntry, contentPassEntry, h, hi, hj]
        · have ih := passesAgree_list cfg (level + 1) (add_inode tracker ino) new_rel children
          simp [structPassEntry, contentPassEntry, h, hi, hj, ih.1, ih.2.1, ih.2.2]
    | SYMLINK_INCLUDE =>
      by_cases hi : has_inode tracker ino
      · simp [structPassEntry, contentPassEntry, h, hi]
      · simp [structPassEntry, contentPassEntry, h, hi]
  | inaccessible nm => simp [structPassEntry, contentPassEntry]

theorem passesAgree_list (cfg : Config) (level : Nat) (tracker : List Ino)
    (rel : List Char) (es : List FSEntry) :
    (structPassList cfg level tracker rel es).visited
        = (contentPassList cfg level tracker rel es).visited
      ∧ (structPassList cfg level tracker rel es).tracker
        = (contentPassList cfg level tracker rel es).tracker
      ∧ (structPassList cfg level tracker rel es).symVisited
        = (contentPassList cfg level tracker rel es).symVisited := by
  cases es with
  | nil => simp [structPassList, contentPassList]
  | cons e rest =>
    cases hp : preludeNewRel cfg rel e.name with
    | none =>
      have ih := passesAgree_list cfg level tracker rel rest
      simp [structPassList, contentPassList, hp, ih.1, ih.2.1, ih.2.2]
    | some nr =>
      have he := passesAgree_entry cfg level tracker nr e
      have ih := passesAgree_list cfg level
        (contentPassEntry cfg level tracker nr e).tracker rel rest
      simp [structPassList, contentPassList, hp, he.1, he.2.1, he.2.2, ih.1, ih.2.1, ih.2.2]

end


mutual

theorem symInv_entry (cfg : Config) (level : Nat) (tracker : List Ino)
    (new_rel : List Char) (e : FSEntry) :
    (contentPassEntry cfg level tracker new_rel e).symVisited.Nodup
      ∧ (∀ i ∈ (contentPassEntry cfg level tracker new_rel e).symVisited, i ∉ tracker)
      ∧ (contentPassEntry cfg level tracker new_rel e).tracker
          = (contentPassEntry cfg level tracker new_rel e).symVisited.reverse ++ tracker := by
  cases e with
  | file nm ino content =>
    simp only [contentPassEntry]
    split_ifs <;> simp
  | dir nm ino children =>
    by_cases hj : joinLen cfg.base_len new_rel.length + 1 > MAX_PATH
    · simp [contentPassEntry, hj]
    · have ih := symInv_list cfg (level + 1) tracker new_rel children
      simp only [contentPassEntry, hj, if_false]
      exact ih
  | symBroken nm =>
    cases h : cfg.symlink_handling <;> simp [contentPassEntry, h]
  | symToFile nm ino content =>
    cases h : cfg.symlink_handling with
    | SYMLINK_SKIP => simp [contentPassEntry, h]
    | SYMLINK_PLACEHOLDER => simp [contentPassEntry, h]
    | SYMLINK_FOLLOW =>
      by_cases hi : has_inode tracker ino
      · simp [contentPassEntry, h, hi]
      · have hmem := not_mem_of_has_inode_false tracker ino (Bool.eq_false_iff.mpr hi)
        have hadd := add_inode_fresh tracker ino (Bool.eq_false_iff.mpr hi)
        simp only [contentPassEntry, h, hi, Bool.false_eq_true, if_false]
        split_ifs <;> simp [hadd, hmem]
    | SYMLINK_INCLUDE =>
      by_cases hi : has_inode tracker ino
      · simp [contentPassEntry, h, hi]
      · have hmem := not_mem_of_has_inode_false tracker ino (Bool.eq_false_iff.mpr hi)
        have hadd := add_inode_fresh tracker ino (Bool.eq_false_iff.mpr hi)
        simp only [contentPassEntry, h, hi, Bool.false_eq_true, if_false]
        split_ifs <;> simp [hadd, hmem]
  | symToDir nm ino children =>
    cases h : cfg.symlink_handling with
    | SYMLINK_SKIP => simp [contentPassEntry, h]
    | SYMLINK_PLACEHOLDER => simp [contentPassEntry, h]
    | SYMLINK_FOLLOW =>
      by_cases hi : has_inode tracker ino
      · simp [contentPassEntry, h, hi]
      · have hmem := not_mem_of_has_inode_false tracker ino (Bool.eq_false_iff.mpr hi)
        have hadd := add_inode_fresh tracker ino (Bool.eq_false_iff.mpr hi)
        by_cases hj : joinLen cfg.base_len new_rel.length + 1 > MAX_PATH
        · simp [contentPassEntry, h, hi, hj, hadd, hmem]
        · have ih := symInv_list cfg (level + 1) (add_inode tracker ino) new_rel children
          rw [hadd] at ih
          simp only [contentPassEntry, h, hi, hj, Bool.false_eq_true, if_false, hadd]
          refine ⟨?_, ?_, ?_⟩
          · rw [List.nodup_cons]
            refine ⟨fun hmem2 => ?_, ih.1⟩
            exact (ih.2.1 ino hmem2) (List.mem_cons_self ino tracker)
          · intro i hi2
            rcases List.mem_cons.mp hi2 with rfl | hi3
            · exact hmem
            · intro hit
              exact (ih.2.1 i hi3) (List.mem_cons_of_mem ino hit)
          · rw [ih.2.2, List.reverse_cons, List.append_assoc, List.singleton_append]
    | SYMLINK_INCLUDE =>
      by_cases hi : has_inode tracker ino
      · simp [contentPassEntry, h, hi]
      · have hmem := not_mem_of_has_inode_false tracker ino (Bool.eq_false_iff.mpr hi)
        have hadd := add_inode_fresh tracker ino (Bool.eq_false_iff.mpr hi)
        simp [contentPassEntry, h, hi, hadd, hmem]
  | inaccessible nm => simp [contentPassEntry]

theorem symInv_list (cfg : Config) (level : Nat) (tracker : List Ino)
    (rel : List Char) (es : List FSEntry) :
    (contentPassList cfg level tracker rel es).symVisited.Nodup
      ∧ (∀ i ∈ (contentPassList cfg level tracker rel es).symVisited, i ∉ tracker)
      ∧ (contentPassList cfg level tracker rel es).tracker
          = (contentPassList cfg level tracker rel es).symVisited.reverse ++ tracker := by
  cases es with
  | nil => simp [contentPassList]
  | cons e rest =>
    cases hp : preludeNewRel cfg rel e.name with
    | none =>
      have ih := symInv_list cfg level tracker rel rest
      simpa [contentPassList, hp] using ih
    | some nr =>
      have he := symInv_entry cfg level tracker nr e
      have ih := symInv_list cfg level
        (contentPassEntry cfg level tracker nr e).tracker rel rest
      simp only [contentPassList, hp]
      have hr2notr1 : ∀ i ∈ (contentPassList cfg level
          (contentPassEntry cfg level tracker nr e).tracker rel rest).symVisited,
          i ∉ (contentPassEntry cfg level tracker nr e).symVisited ∧ i ∉ tracker := by
        intro i hi2
        have h3 := ih.2.1 i hi2
        rw [he.2.2] at h3
        rw [List.mem_append, List.mem_reverse] at h3
        push_neg at h3
        exact h3
      refine ⟨?_, ?_, ?_⟩
      · rw [List.nodup_append]
        exact ⟨he.1, ih.1, fun i hi1 hi2 => (hr2notr1 i hi2).1 hi1⟩
      · intro i hi0
        rcases List.mem_append.mp hi0 with hi1 | hi2
        · exact he.2.1 i hi1
        · exact (hr2notr1 i hi2).2
      · rw [ih.2.2, he.2.2, List.reverse_append, List.append_assoc]

end

/-! ## The claims -/

/-- C8: with zero plugins loaded — a NULL plugin manager or a manager whose
chain is empty — the content-pass body emitted for a file equals the file's
bytes verbatim: the pipeline is the identity on the streamed bytes. -/
theorem zero_plugins_identity (relative_path : List Char) (content : List Nat) :
    (emitFileBody none relative_path content).1 = content
      ∧ (emitFileBody (some []) relative_path content).1 = content := by
  constructor
  · simp only [emitFileBody, List.map_map]
    have h : ∀ c ∈ readChunks content,
        (Prod.fst ∘ writeProcessedChunk none relative_path) c = id c := by
      intro c _
      simp [writeProcessedChunk]
    rw [List.map_congr_left h, List.map_id, readChunks_flatten content.length content (le_refl _)]
  · simp only [emitFileBody, List.map_map]
    have h : ∀ c ∈ readChunks content,
        (Prod.fst ∘ writeProcessedChunk (some []) relative_path) c = id c := by
      intro c hc
      have hne : c ≠ [] := readChunks_ne_nil content.length content c (le_refl _) hc
      simp [writeProcessedChunk, process_file_through_plugins, hne]
    rw [List.map_congr_left h, List.map_id, readChunks_flatten content.length content (le_refl _)]

/-- C6: if `process_chunk` of one plugin in the chain returns a non-zero
status for a chunk, that plugin's output is discarded, the rest of the chain
runs on the very buffer the failing plugin received, the failing plugin
stays in the chain with its context unchanged, and processing continues. -/
theorem process_chunk_failure_is_local
    (pre post : List (StreamingPlugin × Option PluginContext)) (p : StreamingPlugin)
    (c : PluginContext) (input : List Nat)
    (hfail : p.process_chunk c (pluginPipeline pre input).1 = none) :
    pluginPipeline (pre ++ (p, some c) :: post) input
      = ((pluginPipeline post (pluginPipeline pre input).1).1,
         (pluginPipeline pre input).2.1
           ++ (p, some c) :: (pluginPipeline post (pluginPipeline pre input).1).2.1,
         (pluginPipeline pre input).2.2
           ++ PluginEvent.process_chunk_call p.index
              :: (pluginPipeline post (pluginPipeline pre input).1).2.2) := by
  induction pre generalizing input with
  | nil =>
    simp only [pluginPipeline, List.nil_append] at hfail ⊢
    simp [pluginPipeline, hfail]
  | cons q pre ih =>
    obtain ⟨q, oc⟩ := q
    cases oc with
    | none =>
      simp only [pluginPipeline, List.cons_append] at hfail ⊢
      simp [pluginPipeline, ih input hfail]
    | some cq =>
      cases hq : q.process_chunk cq input with
      | none =>
        simp only [pluginPipeline, List.cons_append, hq] at hfail ⊢
        simp [ih input hfail]
      | some out =>
        by_cases hout : out = []
        · subst hout
          simp only [pluginPipeline, List.cons_append, hq, if_pos rfl] at hfail ⊢
          simp [ih input hfail]
        · simp only [pluginPipeline, List.cons_append, hq, if_neg hout] at hfail ⊢
          simp [ih out hfail]

theorem process_chunk_failure_is_local_witness :
    failPlugin.process_chunk { total_processed := 0 } (pluginPipeline [] [5]).1 = none
      ∧ pluginPipeline
            ([] ++ (failPlugin, some { total_processed := 0 })
              :: [(idPlugin, some { total_processed := 0 })]) [5]
          = ((pluginPipeline [(idPlugin, some { total_processed := 0 })]
                (pluginPipeline [] [5]).1).1,
             (pluginPipeline [] [5]).2.1
               ++ (failPlugin, some { total_processed := 0 })
                 :: (pluginPipeline [(idPlugin, some { total_processed := 0 })]
                      (pluginPipeline [] [5]).1).2.1,
             (pluginPipeline [] [5]).2.2
               ++ PluginEvent.process_chunk_call failPlugin.index
                 :: (pluginPipeline [(idPlugin, some { total_processed := 0 })]
                      (pluginPipeline [] [5]).1).2.2) :=
  ⟨rfl, process_chunk_failure_is_local [] [(idPlugin, some { total_processed := 0 })]
    failPlugin { total_processed := 0 } [5] rfl⟩

/-- C1 (code bug): the content pass (src/concat.c:1311-1346) invokes
`process_file_through_plugins` once per 4096-byte chunk, and that function
runs a complete `file_start` / `process_chunk` / `file_end` / `file_cleanup`
cycle per invocation (src/concat.c:216-321). So for a 4097-byte file — two
chunks — a single plugin's `file_start` is called twice, not once per file
as the claim states, and no per-file context survives a chunk boundary. -/
theorem file_start_called_once_per_chunk_bug :
    countFileStart 0 (emitFileBody (some [idPlugin]) [] (List.replicate 4097 37)).2 = 2 := by
  have hne : List.replicate 4096 (37 : Nat) ≠ [] := by
    intro h
    have h2 := congrArg List.length h
    rw [List.length_replicate, List.length_nil] at h2
    exact absurd h2 (by norm_num)
  have hone : ∀ chunk : List Nat, chunk ≠ [] →
      process_file_through_plugins [idPlugin] [] chunk
        = (chunk, [PluginEvent.file_start_call 0, PluginEvent.process_chunk_call 0,
            PluginEvent.file_end_call 0 (some []), PluginEvent.file_cleanup_call 0]) := by
    intro chunk hchunk
    simp only [process_file_through_plugins, pluginPipeline, fileEndEvents, idPlugin,
      List.map_cons, List.map_nil, if_neg hchunk, List.singleton_append, List.cons_append,
      List.nil_append]
  simp only [emitFileBody, readChunks_replicate_4097, List.map_cons, List.map_nil,
    writeProcessedChunk, hone _ hne, hone [37] (by simp),
    List.flatten_cons, List.flatten_nil, countFileStart, List.countP_cons, List.countP_nil]
  decide

/-- C2 (code bug): bytes returned by a plugin's `file_end` are freed without
being written (src/concat.c:307-313): a pass-through plugin whose `file_end`
returns `"TAIL"` on the file `"hi"` yields the body `"hi"` — the event trace
records that the host received the tail bytes, and the output omits them. -/
theorem file_end_output_discarded :
    (emitFileBody (some [tailPlugin]) [] [104, 105]).1 = [104, 105]
      ∧ PluginEvent.file_end_call 0 (some [84, 65, 73, 76])
          ∈ (emitFileBody (some [tailPlugin]) [] [104, 105]).2 := by
  have hchunks : readChunks [104, 105] = [[104, 105]] :=
    readChunks_small _ (by simp) (by simp [PLUGIN_CHUNK_SIZE])
  constructor
  · simp [emitFileBody, hchunks, writeProcessedChunk, process_file_through_plugins,
      pluginPipeline, tailPlugin]
  · simp [emitFileBody, hchunks, writeProcessedChunk, process_file_through_plugins,
      pluginPipeline, fileEndEvents, tailPlugin]

/-- C5: the binary classifier, applied to the up-to-8192-byte head sample,
classifies it as binary iff it contains a NUL byte, or more than 10% of its
bytes are control characters below 0x20 other than tab, LF, CR, FF, VT, or
more than 75% of its bytes have the high bit set; the empty sample is text. -/
theorem is_binary_buffer_spec (buf : List Nat) (hlen : buf.length ≤ BINARY_CHECK_SIZE)
    (hbyte : ∀ b ∈ buf, b < 256) :
    (is_binary_buffer buf = true ↔ specIsBinary buf) ∧ is_binary_buffer [] = false := by
  refine ⟨?_, by simp [is_binary_buffer]⟩
  rw [is_binary_buffer_iff]
  by_cases hnil : buf = []
  · subst hnil; simp [specIsBinary]
  have hlen0 : buf.length ≠ 0 := by simpa using hnil
  by_cases h0 : 0 ∈ buf
  · have hcnt : 0 < buf.countP nullP := by
      rw [List.countP_pos_iff]; exact ⟨0, h0, by simp [nullP]⟩
    constructor
    · intro _; exact Or.inl h0
    · intro _; simp [hlen0, hcnt]
  · -- no NUL byte: the code counts coincide with the spec counts
    have hnullc : buf.countP nullP = 0 := by
      rw [List.countP_eq_zero]
      intro b hb
      simp only [nullP, beq_iff_eq]
      exact fun h => h0 (h ▸ hb)
    have hctrl : buf.countP ctrlP
        = buf.countP (fun b => decide (b < 32 ∧ b ≠ 9 ∧ b ≠ 10 ∧ b ≠ 13 ∧ b ≠ 12 ∧ b ≠ 11)) := by
      apply List.countP_congr
      intro b hb
      have hbz : b ≠ 0 := fun h => h0 (h ▸ hb)
      simp [ctrlP, hbz]
    have hhigh : buf.countP highP = buf.countP (fun b => decide (128 ≤ b)) := by
      apply List.countP_congr
      intro b _
      by_cases hb : 128 ≤ b
      · have h1 : b ≠ 0 := by omega
        have h2 : ¬ (b < 32 ∧ b ≠ 9 ∧ b ≠ 10 ∧ b ≠ 13 ∧ b ≠ 12 ∧ b ≠ 11) := by omega
        simp [highP, h1, h2]; omega
      · have h127 : ¬ (b > 127) := by omega
        simp [highP, h127, hb]
    have d10 : buf.length / 10 <
          buf.countP (fun b => decide (b < 32 ∧ b ≠ 9 ∧ b ≠ 10 ∧ b ≠ 13 ∧ b ≠ 12 ∧ b ≠ 11))
        ↔ buf.length <
          (buf.countP fun b => decide (b < 32 ∧ b ≠ 9 ∧ b ≠ 10 ∧ b ≠ 13 ∧ b ≠ 12 ∧ b ≠ 11)) * 10 :=
      Nat.div_lt_iff_lt_mul (by omega)
    have d4 : buf.length * 3 / 4 < buf.countP (fun b => decide (128 ≤ b))
        ↔ buf.length * 3 < (buf.countP fun b => decide (128 ≤ b)) * 4 :=
      Nat.div_lt_iff_lt_mul (by omega)
    rw [hnullc, hctrl, hhigh]
    unfold specIsBinary
    constructor
    · rintro ⟨-, (h | h | h)⟩
      · omega
      · exact Or.inr (Or.inl (by omega))
      · exact Or.inr (Or.inr (by omega))
    · rintro (h | h | h)
      · exact absurd h h0
      · exact ⟨hlen0, Or.inr (Or.inl (by omega))⟩
      · exact ⟨hlen0, Or.inr (Or.inr (by omega))⟩

theorem is_binary_buffer_spec_witness :
    ((0 : Nat) :: [72, 105]).length ≤ BINARY_CHECK_SIZE
      ∧ (∀ b ∈ ((0 : Nat) :: [72, 105]), b < 256)
      ∧ ((is_binary_buffer ((0 : Nat) :: [72, 105]) = true ↔ specIsBinary ((0 : Nat) :: [72, 105]))
          ∧ is_binary_buffer [] = false) :=
  ⟨by decide, by decide, is_binary_buffer_spec ((0 : Nat) :: [72, 105]) (by decide) (by decide)⟩

/-- C4 (code bug): the spec's classical wildcard semantics makes a pattern
ending in `*` match the bare literal prefix (`*` standing for zero trailing
characters), but `match_pattern` ends with `return *pat == *str`, which
fails when the subject is exhausted while the trailing `*` remains: the
pattern `"a*"` does not match the string `"a"` even though the claim's
generative semantics derives it. -/
theorem match_pattern_trailing_star_bug :
    matchPattern ['a', '*'] ['a'] = false ∧ WildMatch ['a', '*'] ['a'] := by
  constructor
  · simp [matchPattern]
  · exact WildMatch.lit 'a' ['*'] [] (by decide) (by decide)
      (WildMatch.star [] [] [] WildMatch.nil)

/-- C9: `add_exclude_pattern` with a NULL pointer or the empty pattern leaves
the exclude set unchanged (count and all buckets identical), so an empty
pattern never causes any path to be excluded. -/
theorem add_exclude_pattern_empty_noop (ex : ExcludeList) (p : Option (List Char))
    (path : List Char) (h : p = none ∨ p = some []) :
    add_exclude_pattern ex p = ex
      ∧ is_excluded path (add_exclude_pattern ex p) = is_excluded path ex := by
  rcases h with h | h <;> subst h <;> simp [add_exclude_pattern]

theorem add_exclude_pattern_empty_noop_witness :
    ((some [] : Option (List Char)) = none ∨ (some [] : Option (List Char)) = some [])
      ∧ (add_exclude_pattern init_exclude_list (some []) = init_exclude_list
          ∧ is_excluded ['x'] (add_exclude_pattern init_exclude_list (some []))
              = is_excluded ['x'] init_exclude_list) :=
  ⟨Or.inr rfl, add_exclude_pattern_empty_noop init_exclude_list (some []) ['x'] (Or.inr rfl)⟩

/-- C10: `format_size` is total on every unsigned 64-bit size: the unit index
never exceeds 6, so it always indexes into the seven-element unit table
`{B, KB, MB, GB, TB, PB, EB}`, and for every size strictly below 1024 the
output is the exact integer byte count followed by `" B"`. -/
theorem format_size_total (size : Nat) (h64 : size < 2 ^ 64) :
    (formatSizeLoop (size : ℚ) 0).2 ≤ 6
      ∧ (formatSizeLoop (size : ℚ) 0).2 < format_size_units.length
      ∧ (size < 1024 → format_size size = toString size ++ " B") := by
  have hle : (formatSizeLoop (size : ℚ) 0).2 ≤ 6 :=
    formatSizeLoop_idx_le 6 _ 0 (by omega) (by omega)
  refine ⟨hle, by simpa [format_size_units] using Nat.lt_succ_of_le hle, ?_⟩
  intro h1024
  have hq : ¬ (1024 ≤ (size : ℚ) ∧ 0 < 6) := by
    rintro ⟨hge, -⟩
    have : (1024 : ℚ) ≤ (size : ℚ) := hge
    have : (1024 : Nat) ≤ size := by exact_mod_cast this
    omega
  have hloop : formatSizeLoop (size : ℚ) 0 = ((size : ℚ), 0) := by
    rw [formatSizeLoop, dif_neg hq]
  have hB : (" " ++ "B" : String) = " B" := by decide
  simp [format_size, hloop, format_size_units, String.append_assoc, hB]

theorem format_size_total_witness :
    (3 < 2 ^ 64)
      ∧ ((formatSizeLoop ((3 : Nat) : ℚ) 0).2 ≤ 6
          ∧ (formatSizeLoop ((3 : Nat) : ℚ) 0).2 < format_size_units.length
          ∧ (3 < 1024 → format_size 3 = toString 3 ++ " B")) :=
  ⟨by norm_num, format_size_total 3 (by norm_num)⟩

/-- C3: for every directory tree and every config, the structure pass and the
content pass enumerate the same relative paths in the same order (both start
from a fresh empty inode tracker and run the same exclusion, symlink and
binary policies). -/
theorem structure_and_content_visit_same (cfg : Config) (root : List FSEntry) :
    (process_directory_structure cfg root).visited
      = (process_directory_content cfg root).visited := by
  unfold process_directory_structure process_directory_content
  split_ifs with h
  · rfl
  · exact (passesAgree_list cfg 0 [] [] root).1

set_option maxRecDepth 40000 in
/-- C7 (counterexample): under the Follow policy the claim "every
(device-id, inode-id) pair is visited at most once per pass" fails: only
symlink targets are entered into the inode tracker, so on `loopTree` —
`d/f` plus `s -> d` — the content pass recurses into the directory with
inode `(0, 1)` twice and emits the contents of file inode `(0, 2)` twice;
the pass's visited-inode trace has duplicates. -/
theorem follow_inode_visited_twice :
    ¬ ((process_directory_content followCfg loopTree).inoVisits.Nodup) := by
  have hexcl : followCfg.excludes = init_exclude_list := rfl
  have hbl0 : followCfg.base_len = 1 := rfl
  have pd : preludeNewRel followCfg [] ['d'] = some ['d'] := by
    simp [preludeNewRel, joinLen, MAX_PATH, hexcl, hbl0, is_excluded_init]
  have ps : preludeNewRel followCfg [] ['s'] = some ['s'] := by
    simp [preludeNewRel, joinLen, MAX_PATH, hexcl, hbl0, is_excluded_init]
  have pdf : preludeNewRel followCfg ['d'] ['f'] = some ['d', '/', 'f'] := by
    simp [preludeNewRel, joinLen, MAX_PATH, hexcl, hbl0, is_excluded_init]
  have psf : preludeNewRel followCfg ['s'] ['f'] = some ['s', '/', 'f'] := by
    simp [preludeNewRel, joinLen, MAX_PATH, hexcl, hbl0, is_excluded_init]
  have hbh : followCfg.binary_handling = BinaryHandling.BINARY_INCLUDE := rfl
  have hsh : followCfg.symlink_handling = SymlinkHandling.SYMLINK_FOLLOW := rfl
  have hbl : followCfg.base_len = 1 := rfl
  unfold process_directory_content
  rw [if_neg (by decide)]
  simp only [loopTree, contentPassList, contentPassEntry, FSEntry.name, pd, ps, pdf, psf,
    hbh, hsh, hbl, joinLen, MAX_PATH, has_inode, add_inode]
  decide

/-- C7 (amended): under the Follow symlink policy, within a single pass —
the content pass or the structure pass, each starting from a fresh empty
inode tracker — every (device-id, inode-id) pair *reached through a
symlink* is visited at most once: the tracker records exactly the symlink
targets followed, a symlink whose target inode is already tracked is
skipped, and hence the trace of symlink-followed inodes of either pass has
no duplicates. Inodes of entries reached directly — not through a symlink —
are not tracked, which is what the counterexample exploits. -/
theorem follow_symlink_each_inode_once (excl : ExcludeList) (bh : BinaryHandling)
    (ss : Bool) (bl : Nat) (pm : Option (List StreamingPlugin)) (root : List FSEntry) :
    (process_directory_content
        { excludes := excl, binary_handling := bh,
          symlink_handling := SymlinkHandling.SYMLINK_FOLLOW,
          show_size := ss, base_len := bl, plugin_manager := pm } root).symVisited.Nodup
      ∧ (process_directory_structure
          { excludes := excl, binary_handling := bh,
            symlink_handling := SymlinkHandling.SYMLINK_FOLLOW,
            show_size := ss, base_len := bl, plugin_manager := pm } root).symVisited.Nodup := by
  constructor
  · unfold process_directory_content
    split_ifs with h
    · simp
    · exact (symInv_list _ 0 [] [] root).1
  · unfold process_directory_structure
    split_ifs with h
    · simp
    · rw [(passesAgree_list _ 0 [] [] root).2.2]
      exact (symInv_list _ 0 [] [] root).1


end Fconcat
